import Mathlib

/-!
# Econograph — formal model of the constrained layout engine

A shallow embedding of the Econograph visualization core
(`js/visualization.js`, the timeline browse code `app.js`, and the
debates view `debates.js`).  JavaScript numbers are modelled as exact
rationals extended with a NaN element (`JNum`); `undefined`/`null`
fields are modelled with `Option`; `Date.prototype.getFullYear` is
modelled in UTC via the standard civil-from-days calendar algorithm.
-/

namespace Econograph

/-- A JavaScript number: either NaN or an exact rational.  (The English
floating-point rounding of the source's arithmetic is modelled exactly
over `ℚ`; no value used here overflows or needs subnormal behavior.) -/
inductive JNum where
  | nan : JNum
  | num : ℚ → JNum
deriving DecidableEq, Repr

/-- JS `+` : NaN propagates. -/
def jadd : JNum → JNum → JNum
  | JNum.num a, JNum.num b => JNum.num (a + b)
  | _, _ => JNum.nan

/-- JS `-` : NaN propagates. -/
def jsub : JNum → JNum → JNum
  | JNum.num a, JNum.num b => JNum.num (a - b)
  | _, _ => JNum.nan

/-- JS `*` : NaN propagates (no infinities arise in the modelled code). -/
def jmul : JNum → JNum → JNum
  | JNum.num a, JNum.num b => JNum.num (a * b)
  | _, _ => JNum.nan

/-- Year of a calendar date given as days since the Unix epoch
(proleptic Gregorian, UTC), by the standard civil-from-days algorithm. -/
def yearOfDays (z0 : ℤ) : ℤ :=
  let z := z0 + 719468
  let era := Int.fdiv z 146097
  let doe := z - era * 146097
  let yoe := Int.fdiv (doe - Int.fdiv doe 1460 + Int.fdiv doe 36524 - Int.fdiv doe 146096) 365
  let y := yoe + era * 400
  let doy := doe - (365 * yoe + Int.fdiv yoe 4 - Int.fdiv yoe 100)
  let mp := Int.fdiv (5 * doy + 2) 153
  let m := mp + (if mp < 10 then 3 else -9)
  if m ≤ 2 then y + 1 else y

/-- Year of a Unix timestamp in seconds, i.e. the model of
`new Date(seconds * 1000).getFullYear()` (taken in UTC). -/
def yearOfEpochSeconds (s : ℤ) : ℤ :=
  yearOfDays (Int.fdiv s 86400)

/-- `visualization.js` `processNodeData`, birth-year computation:
`const clamped = Math.max(node.born, -20000000000);`
`node.birthYear = new Date(clamped * 1000).getFullYear();`
A missing `born` is `undefined`, so `Math.max` yields NaN. -/
def vizBirthYear (born : Option ℤ) : JNum :=
  match born with
  | none => JNum.nan
  | some b => JNum.num ((yearOfEpochSeconds (max b (-20000000000)) : ℤ) : ℚ)

/-- JS `Math.round`: round half toward +∞. -/
def jsRound (q : ℚ) : ℤ := ⌊q + 1/2⌋

/-- `app.js` birth-year computation:
`n.birthYear = n.born ? Math.round(n.born / (365.25 * 86400) + 1970) : null;`
(`365.25 * 86400 = 31557600` exactly; `born = 0` is falsy and yields null). -/
def appBirthYear (born : Option ℤ) : Option ℤ :=
  match born with
  | none => none
  | some b => if b = 0 then none else some (jsRound ((b : ℚ) / 31557600 + 1970))

/-- `debates.js` `birthYearOf`: uses the app.js-computed value when
present, otherwise recomputes with the same 365.25-day arithmetic. -/
def birthYearOf (birthYear : Option ℤ) (born : Option ℤ) : Option ℤ :=
  match birthYear with
  | some y => some y
  | none =>
    match born with
    | none => none
    | some b => if b = 0 then none else some (jsRound ((b : ℚ) / 31557600 + 1970))

/-- The fields of a raw graph node that the layout engine reads:
`school` (categorical attribute), `born` (optional Unix timestamp in
seconds; `none` = missing), `score` (PageRank importance weight). -/
structure VNode where
  id : ℕ
  school : String
  born : Option ℤ
  score : ℚ
deriving DecidableEq, Repr

/-- `COLUMN_WIDTH` from `visualization.js` (px per school column). -/
def COLUMN_WIDTH : ℚ := 220

/-- `TOP_PADDING` from `visualization.js`. -/
def TOP_PADDING : ℚ := 80

/-- `SCHOOL_ORDER` from `visualization.js`: canonical left-to-right
ordering of schools. -/
def SCHOOL_ORDER : List String := [
  "Classical/Neoclassical",
  "Marxian",
  "Austrian School",
  "Institutional",
  "Economic History",
  "Keynesian",
  "Welfare & Public Economics",
  "Chicago School",
  "Development",
  "Political Economy",
  "Public Choice",
  "International Trade",
  "Labor Economics",
  "Econometrics",
  "Game Theory",
  "Finance",
  "New Keynesian",
  "Behavioral",
  "Health Economics",
  "Environmental Economics",
  "Other"]

/-- `if (!acc.includes(s)) acc.push(s)`: append `s` unless already present. -/
def dedupStep (acc : List String) (s : String) : List String :=
  if acc.contains s then acc else acc ++ [s]

/-- `new Set(graphData.nodes.map(n => n.school))`: a JS `Set` iterates
in insertion order, so it is the list of schools deduplicated keeping
first occurrences. -/
def dedupFirstSeen (l : List String) : List String :=
  l.foldl dedupStep []

/-- `processNodeData`: `SCHOOL_ORDER.filter(s => presentSchools.has(s))`
followed by `presentSchools.forEach(s => { if (!ordered.includes(s)) ordered.push(s); })`. -/
def orderedSchools (present : List String) : List String :=
  present.foldl dedupStep (SCHOOL_ORDER.filter (fun s => present.contains s))

/-- The schools present in the data, in JS `Set` iteration order. -/
def presentOf (nodes : List VNode) : List String :=
  dedupFirstSeen (nodes.map VNode.school)

/-- `schoolColumns`: each ordered school mapped to
`{ x: i * COLUMN_WIDTH + COLUMN_WIDTH / 2, index: i }`, represented as
an association list `(school, index, x)`. -/
def schoolColumnsOf (nodes : List VNode) : List (String × ℕ × ℚ) :=
  (orderedSchools (presentOf nodes)).enum.map
    (fun p => (p.2, p.1, (p.1 : ℚ) * COLUMN_WIDTH + COLUMN_WIDTH / 2))

/-- `schoolColumns[s]`: property lookup on the column map. -/
def lookupCol (cols : List (String × ℕ × ℚ)) (s : String) : Option (ℕ × ℚ) :=
  match cols.find? (fun e => e.1 == s) with
  | some e => some e.2
  | none => none

/-- Whether `s` is a key of the column map. -/
def hasCol (cols : List (String × ℕ × ℚ)) (s : String) : Bool :=
  (lookupCol cols s).isSome

/-- `schoolColumns[node.school] || schoolColumns['Other']` — the lane
fallback used by both position seeding and the column force. -/
def laneFallback (cols : List (String × ℕ × ℚ)) (s : String) : Option (ℕ × ℚ) :=
  match lookupCol cols s with
  | some c => some c
  | none => lookupCol cols "Other"

/-- `d3.min` over birth years: NaN values are skipped; `none` when no
valid value exists (JS `undefined`). -/
def d3minValid (l : List JNum) : Option ℚ :=
  l.foldl (fun acc x =>
    match x with
    | JNum.nan => acc
    | JNum.num q => match acc with
      | none => some q
      | some m => some (min m q)) none

/-- `d3.max` over birth years, NaN-skipping. -/
def d3maxValid (l : List JNum) : Option ℚ :=
  l.foldl (fun acc x =>
    match x with
    | JNum.nan => acc
    | JNum.num q => match acc with
      | none => some q
      | some m => some (max m q)) none

/-- `d3.scaleLinear().domain([d0, d1]).range([r0, r1])` applied to `t`,
with d3-continuous semantics: a degenerate numeric domain (`d1 - d0 = 0`)
maps every input to the midpoint of the range; a NaN domain makes the
normalized position NaN. -/
def d3ScaleLinear (d0 d1 r0 r1 t : JNum) : JNum :=
  match d0, d1 with
  | JNum.num a, JNum.num b =>
    if b - a = 0 then
      jadd r0 (jmul (JNum.num (1/2)) (jsub r1 r0))
    else
      let k := match t with
        | JNum.num x => JNum.num ((x - a) / (b - a))
        | JNum.nan => JNum.nan
      jadd r0 (jmul k (jsub r1 r0))
  | _, _ => jadd r0 (jmul JNum.nan (jsub r1 r0))

/-- `globalYScale` built by `processNodeData`:
domain `[minYear - 10, maxYear + 10]` over the NaN-skipping min/max of
the computed birth years, range `[h * 0.88, TOP_PADDING]` where `h` is
`window.innerHeight`. -/
def globalYScaleOf (nodes : List VNode) (h : ℚ) (t : JNum) : JNum :=
  let ys := nodes.map (fun n => vizBirthYear n.born)
  let d0 := match d3minValid ys with
    | some m => JNum.num (m - 10)
    | none => JNum.nan
  let d1 := match d3maxValid ys with
    | some m => JNum.num (m + 10)
    | none => JNum.nan
  d3ScaleLinear d0 d1 (JNum.num (h * 88 / 100)) (JNum.num TOP_PADDING) t

/-- Position seeding in `processNodeData`:
`node.x = (col ? col.x : COLUMN_WIDTH / 2) + (Math.random() - 0.5) * 40`
with `col = schoolColumns[node.school] || schoolColumns['Other']`.
The `Math.random()` draw is passed in as the parameter `r`. -/
def seedX (cols : List (String × ℕ × ℚ)) (s : String) (r : ℚ) : ℚ :=
  (match laneFallback cols s with
   | some c => c.2
   | none => COLUMN_WIDTH / 2) + (r - 1/2) * 40

/-- Position seeding in `processNodeData`:
`node.y = globalYScale(node.birthYear)`. -/
def seedY (nodes : List VNode) (h : ℚ) (born : Option ℤ) : JNum :=
  globalYScaleOf nodes h (vizBirthYear born)

/-- The seeded `(x, y)` of every node, given the stream `rand` of
`Math.random()` draws (one per node). -/
def seedPositions (nodes : List VNode) (rand : List ℚ) (h : ℚ) : List (ℚ × JNum) :=
  let cols := schoolColumnsOf nodes
  (nodes.zip rand).map (fun p => (seedX cols p.1.school p.2, seedY nodes h p.1.born))

/-- The target of the column force in `createSimulation`:
`d3.forceX(d => { const col = schoolColumns[d.school] || schoolColumns['Other']; return col ? col.x : COLUMN_WIDTH / 2; })`. -/
def forceXTarget (cols : List (String × ℕ × ℚ)) (s : String) : ℚ :=
  match laneFallback cols s with
  | some c => c.2
  | none => COLUMN_WIDTH / 2

/-- An era from `app.js`: label plus half-open year interval
`[min, max)`, where `none` stands for `-Infinity` / `Infinity`. -/
structure Era where
  label : String
  emin : Option ℤ
  emax : Option ℤ
deriving DecidableEq, Repr

/-- `year >= era.min` (with `min = -Infinity` when `none`). -/
def eraGe (y : ℤ) : Option ℤ → Bool
  | none => true
  | some m => decide (m ≤ y)

/-- `year < era.max` (with `max = Infinity` when `none`). -/
def eraLt (y : ℤ) : Option ℤ → Bool
  | none => true
  | some m => decide (y < m)

/-- `year >= era.min && year < era.max`. -/
def eraMatches (y : ℤ) (e : Era) : Bool :=
  eraGe y e.emin && eraLt y e.emax

/-- The `ERAS` table from `app.js`. -/
def ERAS : List Era := [
  ⟨"Pre-1700", none, some 1700⟩,
  ⟨"1700 – 1790", some 1700, some 1790⟩,
  ⟨"1790 – 1870  ·  Classical", some 1790, some 1870⟩,
  ⟨"1870 – 1920  ·  Neoclassical", some 1870, some 1920⟩,
  ⟨"1920 – 1950  ·  Interwar", some 1920, some 1950⟩,
  ⟨"1950 – 1975  ·  Postwar", some 1950, some 1975⟩,
  ⟨"1975+  ·  Contemporary", some 1975, none⟩]

/-- `getEraLabel` from `app.js`: null years map to the last era's
label; otherwise the first era whose half-open interval contains the
year; the trailing `return` is a fallback for no match. -/
def getEraLabel (year : Option ℤ) : String :=
  match year with
  | none => (ERAS.getLastD ⟨"", none, none⟩).label
  | some y =>
    match ERAS.find? (fun e => eraMatches y e) with
    | some e => e.label
    | none => (ERAS.getLastD ⟨"", none, none⟩).label

/-- `graphData.nodes.map(n => n.score).sort((a, b) => b - a)`:
scores sorted descending. -/
def sortDesc (l : List ℚ) : List ℚ :=
  l.mergeSort (fun a b => decide (b ≤ a))

/-- `d3.quantile(values, p)` (d3 v4, on an array taken as pre-sorted):
`undefined` on an empty array; the single endpoint when `p <= 0` or
fewer than two values; the other endpoint when `p >= 1`; otherwise the
linear interpolation at index `(n - 1) * p`. -/
def d3quantile (values : List ℚ) (p : ℚ) : Option ℚ :=
  match values with
  | [] => none
  | v :: vs =>
    if p ≤ 0 ∨ (v :: vs).length < 2 then some v
    else if 1 ≤ p then some ((v :: vs).getLastD v)
    else
      let i : ℚ := ((v :: vs).length - 1 : ℕ) * p
      let i0 : ℕ := (⌊i⌋).toNat
      let a := (v :: vs).getD i0 0
      let b := (v :: vs).getD (i0 + 1) 0
      some (a + (b - a) * (i - (i0 : ℚ)))

/-- The label threshold from `renderGraph`:
`d3.quantile(graphData.nodes.map(n => n.score).sort((a, b) => b - a), 0.15)`. -/
def labelThreshold (scores : List ℚ) : Option ℚ :=
  d3quantile (sortDesc scores) (3/20)

/-- `nodeGroup.filter(d => d.score >= threshold)`: whether a node gets
a label.  `score >= undefined` is false in JS. -/
def labelVisible (scores : List ℚ) (s : ℚ) : Bool :=
  match labelThreshold scores with
  | none => false
  | some t => decide (t ≤ s)

/-- The per-node simulation state: position, velocity and the d3
pin fields `fx`/`fy` (`none` = free). -/
structure SimNode where
  x : ℚ
  y : ℚ
  vx : ℚ
  vy : ℚ
  fx : Option ℚ
  fy : Option ℚ
deriving DecidableEq, Repr

/-- Modelled from the spec: the force-solver tick for one node (the
integration loop lives in the external d3-force library, not in this
repository's sources).  Per the spec's solver contract, integration is
velocity-based with damping, and a drag-pinned node's position is
overridden to its pin coordinate with its velocity zeroed, exactly as
in `simulation.tick`: forces first accumulate into the velocity, then
`if (node.fx == null) node.x += node.vx *= velocityDecay; else node.x = node.fx, node.vx = 0;`
(`fAx`, `fAy` are the per-tick net force contributions, `decay` the
velocity damping factor). -/
def tickNode (decay fAx fAy : ℚ) (n : SimNode) : SimNode :=
  let vx1 := (n.vx + fAx) * decay
  let vy1 := (n.vy + fAy) * decay
  let px := match n.fx with
    | some p => (p, (0 : ℚ))
    | none => (n.x + vx1, vx1)
  let py := match n.fy with
    | some p => (p, (0 : ℚ))
    | none => (n.y + vy1, vy1)
  ⟨px.1, py.1, px.2, py.2, n.fx, n.fy⟩

/-- `dragStarted` from `visualization.js`: `d.fx = d.x; d.fy = d.y;`
(the `alphaTarget` call touches only the global temperature). -/
def dragStarted (n : SimNode) : SimNode :=
  { n with fx := some n.x, fy := some n.y }

/-- `dragging` from `visualization.js`: `d.fx = d3.event.x; d.fy = d3.event.y;`. -/
def dragging (px py : ℚ) (n : SimNode) : SimNode :=
  { n with fx := some px, fy := some py }

/-- `dragEnded` from `visualization.js`: `d.fx = null; d.fy = null;`. -/
def dragEnded (n : SimNode) : SimNode :=
  { n with fx := none, fy := none }

/-- Run one tick per entry of `forces` (a list of per-tick net force
pairs), left to right. -/
def runTicks (decay : ℚ) (forces : List (ℚ × ℚ)) (n : SimNode) : SimNode :=
  forces.foldl (fun m f => tickNode decay f.1 f.2 m) n

/-- The mutable state the zoom handler can see: the simulation nodes
and the viewport transform `(k, tx, ty)` stored on the `g` element. -/
structure ViewState where
  nodes : List SimNode
  transform : ℚ × ℚ × ℚ
deriving DecidableEq, Repr

/-- The zoom handler from `init`:
`.on('zoom', () => g.attr('transform', d3.event.transform))` — it
writes only the `g` element's transform attribute. -/
def onZoom (t : ℚ × ℚ × ℚ) (s : ViewState) : ViewState :=
  { s with transform := t }

/-- Applying the viewport transform to a simulation-space point at
render time (`translate(tx, ty) scale(k)`). -/
def renderPos (t : ℚ × ℚ × ℚ) (p : ℚ × ℚ) : ℚ × ℚ :=
  (t.1 * p.1 + t.2.1, t.1 * p.2 + t.2.2)

/-! ## Lane-assignment lemmas -/

theorem nodup_foldl_dedupStep :
    ∀ (l acc : List String), acc.Nodup → (l.foldl dedupStep acc).Nodup := by
  intro l
  induction l with
  | nil => intro acc h; exact h
  | cons a t ih =>
    intro acc h
    simp only [List.foldl_cons, dedupStep]
    by_cases hc : acc.contains a = true
    · rw [if_pos hc]; exact ih acc h
    · rw [if_neg hc]
      refine ih (acc ++ [a]) ?_
      have ha : a ∉ acc := fun hm => hc (List.elem_iff.mpr hm)
      simp [List.nodup_append, h, ha]

theorem mem_foldl_dedupStep :
    ∀ (l acc : List String) (s : String),
      s ∈ l.foldl dedupStep acc ↔ s ∈ acc ∨ s ∈ l := by
  intro l
  induction l with
  | nil => intro acc s; simp
  | cons a t ih =>
    intro acc s
    simp only [List.foldl_cons, dedupStep]
    by_cases hc : acc.contains a = true
    · rw [if_pos hc]
      have ha : a ∈ acc := List.elem_iff.mp hc
      rw [ih]
      constructor
      · rintro (h | h)
        · exact Or.inl h
        · exact Or.inr (List.mem_cons_of_mem a h)
      · rintro (h | h)
        · exact Or.inl h
        · rcases List.mem_cons.mp h with rfl | h
          · exact Or.inl ha
          · exact Or.inr h
    · rw [if_neg hc, ih]
      simp only [List.mem_append, List.mem_singleton, List.mem_cons]
      tauto

theorem foldl_dedupStep_eq_append :
    ∀ (l acc : List String), l.Nodup →
      l.foldl dedupStep acc = acc ++ l.filter (fun s => !acc.contains s) := by
  intro l
  induction l with
  | nil => intro acc _; simp
  | cons a t ih =>
    intro acc h
    have hat : a ∉ t := (List.nodup_cons.mp h).1
    have ht : t.Nodup := (List.nodup_cons.mp h).2
    simp only [List.foldl_cons, dedupStep]
    by_cases hc : acc.contains a = true
    · have ha : a ∈ acc := List.elem_iff.mp hc
      rw [if_pos hc, ih acc ht, List.filter_cons]
      simp [ha]
    · have ha : a ∉ acc := fun hm => hc (List.elem_iff.mpr hm)
      have hfil : t.filter (fun s => !(acc ++ [a]).contains s)
          = t.filter (fun s => !acc.contains s) := by
        refine List.filter_congr ?_
        intro x hx
        have hxa : x ≠ a := fun hxa => hat (hxa ▸ hx)
        simp [List.elem_iff, hxa]
      rw [if_neg hc, ih (acc ++ [a]) ht, hfil, List.filter_cons]
      simp [ha, List.append_assoc]

theorem nodup_presentOf (nodes : List VNode) : (presentOf nodes).Nodup :=
  nodup_foldl_dedupStep _ [] List.nodup_nil

theorem mem_presentOf (nodes : List VNode) (s : String) :
    s ∈ presentOf nodes ↔ s ∈ nodes.map VNode.school := by
  unfold presentOf dedupFirstSeen
  rw [mem_foldl_dedupStep]
  simp

theorem orderedSchools_eq (present : List String) (h : present.Nodup) :
    orderedSchools present
      = SCHOOL_ORDER.filter (fun s => present.contains s)
        ++ present.filter (fun s => !SCHOOL_ORDER.contains s) := by
  unfold orderedSchools
  rw [foldl_dedupStep_eq_append present _ h]
  congr 1
  refine List.filter_congr ?_
  intro x hx
  simp [List.elem_iff, List.mem_filter, hx]

theorem mem_orderedSchools (present : List String) (s : String) :
    s ∈ orderedSchools present ↔ s ∈ present := by
  unfold orderedSchools
  rw [mem_foldl_dedupStep]
  constructor
  · rintro (h | h)
    · exact List.elem_iff.mp (List.mem_filter.mp h).2
    · exact h
  · exact fun h => Or.inr h

theorem map_fst_schoolColumnsOf (nodes : List VNode) :
    (schoolColumnsOf nodes).map Prod.fst = orderedSchools (presentOf nodes) := by
  unfold schoolColumnsOf
  rw [List.map_map]
  exact List.enum_map_snd _

theorem hasCol_iff (nodes : List VNode) (s : String) :
    hasCol (schoolColumnsOf nodes) s = true ↔ s ∈ nodes.map VNode.school := by
  unfold hasCol lookupCol
  cases hf : (schoolColumnsOf nodes).find? (fun e => e.1 == s) with
  | none =>
    simp only [hf, Option.isSome_none]
    constructor
    · intro h; exact absurd h (by simp)
    · intro h
      exfalso
      have hmem : s ∈ (schoolColumnsOf nodes).map Prod.fst := by
        rw [map_fst_schoolColumnsOf, mem_orderedSchools, mem_presentOf]
        exact h
      rcases List.mem_map.mp hmem with ⟨e, he, rfl⟩
      have := List.find?_eq_none.mp hf e he
      simp at this
  | some e =>
    simp only [hf, Option.isSome_some]
    constructor
    · intro _
      have hpe := List.find?_some hf
      have hmem := List.mem_of_find?_eq_some hf
      have hes : e.1 = s := by simpa using hpe
      subst hes
      have hk : e.1 ∈ (schoolColumnsOf nodes).map Prod.fst :=
        List.mem_map_of_mem _ hmem
      rw [map_fst_schoolColumnsOf, mem_orderedSchools, mem_presentOf] at hk
      exact hk
    · intro _; trivial

/-- C5: lane assignment orders the categories that are present by the
canonical list first, appends present-but-unlisted categories in
first-seen order, assigns each lane the center
`x = index * laneWidth + laneWidth / 2`, and is deterministic and
idempotent (it is a pure function of the category sequence, so running
it twice on the same category set yields identical mappings). -/
theorem assignLanes_spec (nodes : List VNode) :
    (orderedSchools (presentOf nodes)
        = SCHOOL_ORDER.filter (fun s => (presentOf nodes).contains s)
          ++ (presentOf nodes).filter (fun s => !SCHOOL_ORDER.contains s))
    ∧ (∀ e ∈ schoolColumnsOf nodes,
        e.2.2 = (e.2.1 : ℚ) * COLUMN_WIDTH + COLUMN_WIDTH / 2)
    ∧ (∀ nodes2 : List VNode, nodes.map VNode.school = nodes2.map VNode.school →
        schoolColumnsOf nodes = schoolColumnsOf nodes2) := by
  refine ⟨orderedSchools_eq _ (nodup_presentOf nodes), ?_, ?_⟩
  · intro e he
    unfold schoolColumnsOf at he
    rcases List.mem_map.mp he with ⟨p, -, rfl⟩
    rfl
  · intro nodes2 h
    unfold schoolColumnsOf presentOf dedupFirstSeen
    rw [h]

/-- Witness for `assignLanes_spec`: two different node lists carrying
the same category sequence receive identical lane maps. -/
theorem assignLanes_spec_witness :
    schoolColumnsOf [⟨1, "Keynesian", none, 0⟩]
      = schoolColumnsOf [⟨2, "Keynesian", some 5, 1⟩] :=
  (assignLanes_spec [⟨1, "Keynesian", none, 0⟩]).2.2
    [⟨2, "Keynesian", some 5, 1⟩] (by decide)

/-- C2, counterexample: for a dataset whose only category is
"Keynesian", the lane map contains no "Other" lane at all. -/
theorem other_lane_missing_cex :
    hasCol (schoolColumnsOf [⟨1, "Keynesian", some (-617760000), 1/10⟩]) "Other"
      = false := by decide

/-- C2 as amended: the lane map contains an "Other" lane iff some
node's category is literally "Other"; every node's category is always
a key of the lane map (so the `|| schoolColumns['Other']` fallback in
seeding and in the column-force target is never taken for nodes of the
dataset the map was built from). -/
theorem other_lane_amended (nodes : List VNode) :
    (hasCol (schoolColumnsOf nodes) "Other" = true ↔ "Other" ∈ nodes.map VNode.school)
    ∧ (∀ n ∈ nodes, hasCol (schoolColumnsOf nodes) n.school = true) := by
  refine ⟨hasCol_iff nodes "Other", ?_⟩
  intro n hn
  rw [hasCol_iff]
  exact List.mem_map_of_mem _ hn

/-- Witness for `other_lane_amended`. -/
theorem other_lane_amended_witness :
    hasCol (schoolColumnsOf [⟨1, "Other", none, 0⟩]) "Other" = true :=
  (other_lane_amended [⟨1, "Other", none, 0⟩]).2 ⟨1, "Other", none, 0⟩ (by decide)

/-! ## Era classification -/

/-- C10: era classification is total and exhaustive — for every year
exactly one era of `ERAS` matches (the half-open intervals partition
the integers, from the unbounded first era to the unbounded last one),
`getEraLabel` returns that era's label, and a null birth year maps to
the final era's label "1975+  ·  Contemporary". -/
theorem getEraLabel_total :
    (∀ y : ℤ, ERAS.countP (fun e => eraMatches y e) = 1)
    ∧ getEraLabel none = "1975+  ·  Contemporary"
    ∧ (∀ y : ℤ, ∃ e ∈ ERAS, eraMatches y e = true ∧ getEraLabel (some y) = e.label) := by
  refine ⟨?_, rfl, ?_⟩
  · intro y
    simp only [ERAS, List.countP_cons, List.countP_nil, eraMatches, eraGe, eraLt,
      Bool.and_eq_true, decide_eq_true_eq, Bool.true_and, Bool.and_true]
    split_ifs <;> omega
  · intro y
    by_cases h1 : y < 1700
    · refine ⟨⟨"Pre-1700", none, some 1700⟩, by simp [ERAS], ?_, ?_⟩
      · simp [eraMatches, eraGe, eraLt, h1]
      · simp [getEraLabel, ERAS, eraMatches, eraGe, eraLt, h1]
    · have g1 : (1700 : ℤ) ≤ y := not_lt.mp h1
      by_cases h2 : y < 1790
      · refine ⟨⟨"1700 – 1790", some 1700, some 1790⟩, by simp [ERAS], ?_, ?_⟩
        · simp [eraMatches, eraGe, eraLt, h2, g1]
        · simp [getEraLabel, ERAS, eraMatches, eraGe, eraLt, h1, h2, g1]
      · have g2 : (1790 : ℤ) ≤ y := not_lt.mp h2
        by_cases h3 : y < 1870
        · refine ⟨⟨"1790 – 1870  ·  Classical", some 1790, some 1870⟩,
            by simp [ERAS], ?_, ?_⟩
          · simp [eraMatches, eraGe, eraLt, h3, g2]
          · simp [getEraLabel, ERAS, eraMatches, eraGe, eraLt, h1, h2, h3, g1, g2]
        · have g3 : (1870 : ℤ) ≤ y := not_lt.mp h3
          by_cases h4 : y < 1920
          · refine ⟨⟨"1870 – 1920  ·  Neoclassical", some 1870, some 1920⟩,
              by simp [ERAS], ?_, ?_⟩
            · simp [eraMatches, eraGe, eraLt, h4, g3]
            · simp [getEraLabel, ERAS, eraMatches, eraGe, eraLt, h1, h2, h3, h4, g1, g2, g3]
          · have g4 : (1920 : ℤ) ≤ y := not_lt.mp h4
            by_cases h5 : y < 1950
            · refine ⟨⟨"1920 – 1950  ·  Interwar", some 1920, some 1950⟩,
                by simp [ERAS], ?_, ?_⟩
              · simp [eraMatches, eraGe, eraLt, h5, g4]
              · simp [getEraLabel, ERAS, eraMatches, eraGe, eraLt,
                  h1, h2, h3, h4, h5, g1, g2, g3, g4]
            · have g5 : (1950 : ℤ) ≤ y := not_lt.mp h5
              by_cases h6 : y < 1975
              · refine ⟨⟨"1950 – 1975  ·  Postwar", some 1950, some 1975⟩,
                  by simp [ERAS], ?_, ?_⟩
                · simp [eraMatches, eraGe, eraLt, h6, g5]
                · simp [getEraLabel, ERAS, eraMatches, eraGe, eraLt,
                    h1, h2, h3, h4, h5, h6, g1, g2, g3, g4, g5]
              · have g6 : (1975 : ℤ) ≤ y := not_lt.mp h6
                refine ⟨⟨"1975+  ·  Contemporary", some 1975, none⟩,
                  by simp [ERAS], ?_, ?_⟩
                · simp [eraMatches, eraGe, eraLt, g6]
                · simp [getEraLabel, ERAS, eraMatches, eraGe, eraLt,
                    h1, h2, h3, h4, h5, h6, g1, g2, g3, g4, g5, g6]

/-- Witness for `getEraLabel_total`. -/
theorem getEraLabel_total_witness :
    ERAS.countP (fun e => eraMatches 1875 e) = 1
    ∧ getEraLabel none = "1975+  ·  Contemporary"
    ∧ getEraLabel (some 1875) = "1870 – 1920  ·  Neoclassical" :=
  ⟨getEraLabel_total.1 1875, getEraLabel_total.2.1, by decide⟩

/-! ## Temporal-coordinate conversions -/

theorem jsRound_eq (q : ℚ) (y : ℤ) (h1 : (y : ℚ) ≤ q + 1/2) (h2 : q + 1/2 < (y : ℚ) + 1) :
    jsRound q = y := by
  unfold jsRound
  rw [Int.floor_eq_iff]
  exact ⟨h1, by linarith⟩

theorem appBirthYear_eval (b y : ℤ) (hb : ¬ b = 0)
    (h : jsRound ((b : ℚ) / 31557600 + 1970) = y) :
    appBirthYear (some b) = some y := by
  simp only [appBirthYear, if_neg hb, h]

theorem vizBirthYear_eval (b y : ℤ) (h : yearOfEpochSeconds (max b (-20000000000)) = y) :
    vizBirthYear (some b) = JNum.num (y : ℚ) := by
  simp only [vizBirthYear, h]

/-- C3, counterexample: a missing timestamp yields NaN — not null — in
the layout engine's birth-year computation, and an out-of-plausible-
range timestamp (year 1019) yields an ordinary non-null year in the
browse code. -/
theorem birthYear_null_cex :
    vizBirthYear none = JNum.nan
    ∧ appBirthYear (some (-30000000000)) = some 1019 :=
  ⟨rfl, appBirthYear_eval _ _ (by norm_num)
    (jsRound_eq _ _ (by norm_num) (by norm_num))⟩

/-- C3 as amended: the browse code's conversion yields null exactly for
a missing or zero (falsy) timestamp; the layout engine yields NaN — not
null — for a missing timestamp, and an ordinary number (never NaN) for
every present timestamp, however far out of plausible range; neither
path throws (both conversions are total functions). -/
theorem birthYear_null_amended (born : Option ℤ) :
    (appBirthYear born = none ↔ born = none ∨ born = some 0)
    ∧ (born = none → vizBirthYear born = JNum.nan)
    ∧ (∀ b : ℤ, born = some b → vizBirthYear born ≠ JNum.nan) := by
  refine ⟨?_, ?_, ?_⟩
  · cases born with
    | none => simp [appBirthYear]
    | some b =>
      by_cases hb : b = 0
      · subst hb; simp [appBirthYear]
      · simp [appBirthYear, hb]
  · rintro rfl; rfl
  · rintro b rfl
    intro hcontra
    exact JNum.noConfusion hcontra

/-- Witness for `birthYear_null_amended`. -/
theorem birthYear_null_amended_witness :
    vizBirthYear (some 328320000) ≠ JNum.nan :=
  (birthYear_null_amended (some 328320000)).2.2 328320000 rfl

/-- C9, counterexample: the calendar conversion of the layout engine and
the 365.25-day arithmetic conversion of the browse/debates code disagree
at `born = -25000000000`: the former clamps to `-20000000000` and
computes year 1336, the latter computes year 1178. -/
theorem yearConversions_disagree_cex :
    vizBirthYear (some (-25000000000)) = JNum.num 1336
    ∧ appBirthYear (some (-25000000000)) = some 1178
    ∧ birthYearOf none (some (-25000000000)) = some 1178
    ∧ (1336 : ℚ) ≠ (1178 : ℚ) := by
  refine ⟨?_, ?_, ?_, by norm_num⟩
  · have h := vizBirthYear_eval (-25000000000) 1336 (by decide)
    simpa using h
  · exact appBirthYear_eval _ _ (by norm_num)
      (jsRound_eq _ _ (by norm_num) (by norm_num))
  · simp only [birthYearOf]
    rw [if_neg (by norm_num : ¬ ((-25000000000 : ℤ)) = 0),
      jsRound_eq _ 1178 (by norm_num) (by norm_num)]

/-- C9 as amended: the system's temporal conversions are two distinct
deterministic functions of the timestamp, not one: the layout engine's
calendar conversion clamps at `-20000000000` and is constant (year
1336) at and below the clamp, while the arithmetic conversion of the
browse and debates code keeps decreasing there (e.g. 1178 at
`born = -25000000000`). -/
theorem yearConversions_amended :
    (∀ b : ℤ, b ≤ -20000000000 → vizBirthYear (some b) = JNum.num 1336)
    ∧ appBirthYear (some (-25000000000)) = some 1178 := by
  constructor
  · intro b hb
    have hy : yearOfEpochSeconds (max b (-20000000000)) = 1336 := by
      rw [max_eq_right hb]
      decide
    have h := vizBirthYear_eval b 1336 hy
    simpa using h
  · exact appBirthYear_eval _ _ (by norm_num)
      (jsRound_eq _ _ (by norm_num) (by norm_num))

/-- Witness for `yearConversions_amended`. -/
theorem yearConversions_amended_witness :
    vizBirthYear (some (-22000000000)) = JNum.num 1336 :=
  yearConversions_amended.1 (-22000000000) (by norm_num)

/-! ## Temporal scale direction (C1) and degenerate datasets (C4) -/

/-- The failing dataset for the temporal-scale direction: three nodes
whose computed birth years are 1850, 1950 and 1980. -/
def c1nodes : List VNode :=
  [⟨1, "Classical/Neoclassical", some (-3775680000), 1/100⟩,
   ⟨2, "Keynesian", some (-617760000), 1/100⟩,
   ⟨3, "Keynesian", some 328320000, 1/100⟩]

/-- C1, evaluation at the failing input: with viewport height 1000 the
scale maps birth year 1850 to pixel 2480/3 ≈ 826.7, 1950 to 880/3 ≈
293.3 and 1980 to 400/3 ≈ 133.3 — strictly decreasing, earliest year
at the LARGEST pixel (bottom of the screen) — so the claimed
`birthYear(a) < birthYear(b) → pixel(a) < pixel(b)` fails, contradicting
the code's own comments ("older economists near top", "top = oldest"):
the d3 range `[h * 0.88, TOP_PADDING]` is reversed. -/
theorem temporal_scale_direction_eval :
    vizBirthYear (some (-3775680000)) = JNum.num 1850
    ∧ vizBirthYear (some (-617760000)) = JNum.num 1950
    ∧ vizBirthYear (some 328320000) = JNum.num 1980
    ∧ seedY c1nodes 1000 (some (-3775680000)) = JNum.num (2480/3)
    ∧ seedY c1nodes 1000 (some (-617760000)) = JNum.num (880/3)
    ∧ seedY c1nodes 1000 (some 328320000) = JNum.num (400/3)
    ∧ ¬ ((2480/3 : ℚ) < 880/3)
    ∧ (880/3 : ℚ) < 2480/3 ∧ (400/3 : ℚ) < 880/3 := by
  have h1 := vizBirthYear_eval (-3775680000) 1850 (by decide)
  have h2 := vizBirthYear_eval (-617760000) 1950 (by decide)
  have h3 := vizBirthYear_eval 328320000 1980 (by decide)
  refine ⟨by simpa using h1, by simpa using h2, by simpa using h3,
    ?_, ?_, ?_, by norm_num, by norm_num, by norm_num⟩ <;>
  norm_num [seedY, globalYScaleOf, c1nodes, h1, h2, h3, d3minValid, d3maxValid,
    d3ScaleLinear, jadd, jsub, jmul, min_def, max_def, TOP_PADDING]

/-- If every element of the list is NaN then the NaN-skipping fold of
`d3.min` stays at its accumulator. -/
theorem foldl_d3min_all_nan :
    ∀ (l : List JNum) (acc : Option ℚ), (∀ x ∈ l, x = JNum.nan) →
      l.foldl (fun acc x =>
        match x with
        | JNum.nan => acc
        | JNum.num q => match acc with
          | none => some q
          | some m => some (min m q)) acc = acc := by
  intro l
  induction l with
  | nil => intro acc _; rfl
  | cons a t ih =>
    intro acc h
    have ha : a = JNum.nan := h a (List.mem_cons_self a t)
    subst ha
    exact ih acc (fun x hx => h x (List.mem_cons_of_mem _ hx))

/-- Same for `d3.max`. -/
theorem foldl_d3max_all_nan :
    ∀ (l : List JNum) (acc : Option ℚ), (∀ x ∈ l, x = JNum.nan) →
      l.foldl (fun acc x =>
        match x with
        | JNum.nan => acc
        | JNum.num q => match acc with
          | none => some q
          | some m => some (max m q)) acc = acc := by
  intro l
  induction l with
  | nil => intro acc _; rfl
  | cons a t ih =>
    intro acc h
    have ha : a = JNum.nan := h a (List.mem_cons_self a t)
    subst ha
    exact ih acc (fun x hx => h x (List.mem_cons_of_mem _ hx))

/-- C4, counterexample: a one-node dataset with no valid timestamp is
seeded at y = NaN (not a finite coordinate), and for an empty dataset
the scale maps every year to NaN rather than degenerating to a fixed
single point. -/
theorem seedPositions_single_eval :
    seedPositions [⟨1, "Other", none, 0⟩] [1/2] 1000 = [(110, JNum.nan)] := by
  norm_num [seedPositions, seedX, seedY, laneFallback, lookupCol, schoolColumnsOf,
    orderedSchools, presentOf, dedupFirstSeen, dedupStep, SCHOOL_ORDER, COLUMN_WIDTH,
    globalYScaleOf, d3minValid, d3maxValid, d3ScaleLinear, vizBirthYear, jadd, jsub,
    jmul, List.find?]

theorem degenerate_seed_cex :
    seedPositions [⟨1, "Other", none, 0⟩] [1/2] 1000 = [(110, JNum.nan)]
    ∧ globalYScaleOf ([] : List VNode) 1000 (JNum.num 1900) = JNum.nan :=
  ⟨seedPositions_single_eval, rfl⟩

/-- C4 as amended: with zero nodes, or with no node carrying a valid
temporal coordinate, constructing the scale and seeding positions still
never throws (all the modelled functions are total), but the layout is
not finite: with zero nodes nothing is seeded, and when no node has a
valid timestamp the scale's domain is NaN and every node's seeded
y-coordinate is NaN rather than a finite default. -/
theorem degenerate_seed_amended (nodes : List VNode) (rand : List ℚ) (h : ℚ)
    (hall : ∀ n ∈ nodes, n.born = none) :
    seedPositions ([] : List VNode) rand h = []
    ∧ ∀ p ∈ seedPositions nodes rand h, p.2 = JNum.nan := by
  have hys : ∀ x ∈ nodes.map (fun n => vizBirthYear n.born), x = JNum.nan := by
    intro x hx
    rcases List.mem_map.mp hx with ⟨n, hn, rfl⟩
    rw [hall n hn]
    rfl
  refine ⟨by simp [seedPositions], ?_⟩
  intro p hp
  simp only [seedPositions] at hp
  rcases List.mem_map.mp hp with ⟨q, hq, rfl⟩
  show seedY nodes h q.1.born = JNum.nan
  simp only [seedY, globalYScaleOf]
  rw [show d3minValid (nodes.map (fun n => vizBirthYear n.born)) = none from
        foldl_d3min_all_nan _ none hys,
      show d3maxValid (nodes.map (fun n => vizBirthYear n.born)) = none from
        foldl_d3max_all_nan _ none hys]
  rfl

/-- Witness for `degenerate_seed_amended`. -/
theorem degenerate_seed_amended_witness :
    ((110 : ℚ), JNum.nan) ∈ seedPositions [⟨1, "Other", none, 0⟩] [1/2] 1000
    ∧ (((110 : ℚ), JNum.nan) : ℚ × JNum).2 = JNum.nan :=
  ⟨by rw [seedPositions_single_eval]; exact List.mem_singleton_self _,
   (degenerate_seed_amended [⟨1, "Other", none, 0⟩] [1/2] 1000 (by decide)).2
     ((110 : ℚ), JNum.nan)
     (by rw [seedPositions_single_eval]; exact List.mem_singleton_self _)⟩

/-! ## Drag pinning and zoom -/

/-- A node pinned at `(px, py)` that has already absorbed one tick is a
fixed point of the tick function. -/
theorem tickNode_pinned_fix (decay a b px py : ℚ) :
    tickNode decay a b (⟨px, py, 0, 0, some px, some py⟩ : SimNode)
      = ⟨px, py, 0, 0, some px, some py⟩ := rfl

theorem runTicks_pinned_fix (decay px py : ℚ) :
    ∀ forces : List (ℚ × ℚ),
      runTicks decay forces (⟨px, py, 0, 0, some px, some py⟩ : SimNode)
        = ⟨px, py, 0, 0, some px, some py⟩ := by
  intro forces
  induction forces with
  | nil => rfl
  | cons f t ih =>
    show runTicks decay t (tickNode decay f.1 f.2 ⟨px, py, 0, 0, some px, some py⟩)
      = ⟨px, py, 0, 0, some px, some py⟩
    rw [tickNode_pinned_fix]
    exact ih

/-- C6: while a node is drag-pinned its position equals exactly the
last drag coordinate on every solver tick after the drag event (and
stays there for any further ticks); `dragEnded` clears both pin fields
(`fx = null` and `fy = null`), so the node re-joins the simulation free
on both axes; and on the first tick after the unpin the node's x
(resp. y) position changes iff the net x (resp. y) force on it is
non-zero. -/
theorem drag_pin_spec (decay px py : ℚ) (n : SimNode) (hd : 0 < decay) :
    (∀ f : ℚ × ℚ, ∀ forces : List (ℚ × ℚ),
        (runTicks decay (f :: forces) (dragging px py n)).x = px
        ∧ (runTicks decay (f :: forces) (dragging px py n)).y = py)
    ∧ (dragEnded n).fx = none ∧ (dragEnded n).fy = none
    ∧ (∀ fAx fAy fBx fBy : ℚ,
        ((tickNode decay fBx fBy
            (dragEnded (tickNode decay fAx fAy (dragging px py n)))).x ≠ px ↔ fBx ≠ 0)
        ∧ ((tickNode decay fBx fBy
            (dragEnded (tickNode decay fAx fAy (dragging px py n)))).y ≠ py ↔ fBy ≠ 0)) := by
  refine ⟨?_, rfl, rfl, ?_⟩
  · intro f forces
    have h1 : tickNode decay f.1 f.2 (dragging px py n)
        = ⟨px, py, 0, 0, some px, some py⟩ := rfl
    show ((runTicks decay forces (tickNode decay f.1 f.2 (dragging px py n))).x = px)
      ∧ ((runTicks decay forces (tickNode decay f.1 f.2 (dragging px py n))).y = py)
    rw [h1, runTicks_pinned_fix]
    exact ⟨rfl, rfl⟩
  · intro fAx fAy fBx fBy
    have hx : (tickNode decay fBx fBy
        (dragEnded (tickNode decay fAx fAy (dragging px py n)))).x
        = px + (0 + fBx) * decay := rfl
    have hy : (tickNode decay fBx fBy
        (dragEnded (tickNode decay fAx fAy (dragging px py n)))).y
        = py + (0 + fBy) * decay := rfl
    rw [hx, hy]
    constructor
    · rw [ne_eq, add_right_eq_self, mul_eq_zero, zero_add]
      simp [hd.ne']
    · rw [ne_eq, add_right_eq_self, mul_eq_zero, zero_add]
      simp [hd.ne']

/-- Witness for `drag_pin_spec`. -/
theorem drag_pin_spec_witness :
    (runTicks (1/2) [(5, 7)] (dragging 3 4 ⟨0, 0, 0, 0, none, none⟩)).x = 3 :=
  ((drag_pin_spec (1/2) 3 4 ⟨0, 0, 0, 0, none, none⟩ (by norm_num)).1 (5, 7) []).1

/-- C7: the zoom handler writes only the viewport transform — the
simulation-space coordinates and velocities of every node are left
unchanged, re-applying the handler with the same transform is
idempotent (so it can be re-applied after any re-render without
disturbing simulation state), and the rendered position is just the
transform applied to the untouched simulation position. -/
theorem zoom_frame_effect (t : ℚ × ℚ × ℚ) (s : ViewState) :
    (onZoom t s).nodes = s.nodes
    ∧ onZoom t (onZoom t s) = onZoom t s
    ∧ ∀ p : ℚ × ℚ, renderPos (onZoom t s).transform p = renderPos t p :=
  ⟨rfl, rfl, fun _ => rfl⟩

/-! ## Label threshold (C8) -/

theorem countP_ge_of_strict_desc :
    ∀ (s : List ℚ) (k : ℕ) (t : ℚ), s.Pairwise (· > ·) → ∀ (hk : k < s.length),
      t ≤ s.get ⟨k, hk⟩ →
      (∀ j (hj : j < s.length), k < j → s.get ⟨j, hj⟩ < t) →
      s.countP (fun x => decide (t ≤ x)) = k + 1 := by
  intro s
  induction s with
  | nil =>
    intro k t _ hk
    exact absurd hk (by simp)
  | cons a rest ih =>
    intro k t hs hk hle hgt
    have hpc := List.pairwise_cons.mp hs
    cases k with
    | zero =>
      have hta : t ≤ a := hle
      have hrest : rest.countP (fun x => decide (t ≤ x)) = 0 := by
        rw [List.countP_eq_zero]
        intro x hx
        rcases List.mem_iff_get.mp hx with ⟨j, rfl⟩
        have hj1 : j.1 + 1 < (a :: rest).length := by
          simp only [List.length_cons]
          exact Nat.succ_lt_succ j.2
        have hlt := hgt (j.1 + 1) hj1 (Nat.succ_pos _)
        have hgetEq : (a :: rest).get ⟨j.1 + 1, hj1⟩ = rest.get j := by
          simp [List.get_cons_succ]
        rw [hgetEq] at hlt
        simpa using hlt
      rw [List.countP_cons, hrest]
      simp [hta]
    | succ k =>
      have hrk : k < rest.length := by
        simp only [List.length_cons] at hk
        omega
      have hle' : t ≤ rest.get ⟨k, hrk⟩ := hle
      have hgt' : ∀ j (hj : j < rest.length), k < j → rest.get ⟨j, hj⟩ < t := by
        intro j hj hkj
        have hj1 : j + 1 < (a :: rest).length := by
          simp only [List.length_cons]
          omega
        exact hgt (j + 1) hj1 (Nat.succ_lt_succ hkj)
      have hta : t ≤ a :=
        le_of_lt (lt_of_le_of_lt hle' (hpc.1 _ (List.get_mem rest k hrk)))
      rw [List.countP_cons, ih k t hpc.2 hrk hle' hgt']
      simp [hta]

theorem d3quantile_cons_eval (v : ℚ) (vs : List ℚ) (h2 : 2 ≤ (v :: vs).length) :
    d3quantile (v :: vs) (3/20)
      = some ((v :: vs).getD (⌊(((v :: vs).length - 1 : ℕ) : ℚ) * (3/20)⌋.toNat) 0
          + ((v :: vs).getD (⌊(((v :: vs).length - 1 : ℕ) : ℚ) * (3/20)⌋.toNat + 1) 0
              - (v :: vs).getD (⌊(((v :: vs).length - 1 : ℕ) : ℚ) * (3/20)⌋.toNat) 0)
            * ((((v :: vs).length - 1 : ℕ) : ℚ) * (3/20)
                - (⌊(((v :: vs).length - 1 : ℕ) : ℚ) * (3/20)⌋.toNat : ℚ))) := by
  simp only [d3quantile]
  rw [if_neg (show ¬((3:ℚ)/20 ≤ 0 ∨ (v :: vs).length < 2) by
        push_neg
        exact ⟨by norm_num, by omega⟩),
      if_neg (show ¬(1:ℚ) ≤ 3/20 by norm_num)]

theorem countP_quantile_desc :
    ∀ (s : List ℚ), 2 ≤ s.length → s.Pairwise (· > ·) →
      ∃ t, d3quantile s (3/20) = some t
        ∧ s.countP (fun x => decide (t ≤ x))
            = (⌊((s.length : ℚ) - 1) * (3/20)⌋).toNat + 1 := by
  intro s h2 hstrict
  match s, h2, hstrict with
  | v :: vs, h2, hstrict =>
  have hn2 : 2 ≤ (v :: vs).length := h2
  have hcastlen : (((v :: vs).length - 1 : ℕ) : ℚ) = ((v :: vs).length : ℚ) - 1 := by
    rw [Nat.cast_sub (by omega : 1 ≤ (v :: vs).length)]
    norm_num
  have hipos : 0 ≤ (((v :: vs).length - 1 : ℕ) : ℚ) * (3/20) := by positivity
  have hfloor0 : 0 ≤ ⌊(((v :: vs).length - 1 : ℕ) : ℚ) * (3/20)⌋ := Int.floor_nonneg.mpr hipos
  have hcasti0 : ((⌊(((v :: vs).length - 1 : ℕ) : ℚ) * (3/20)⌋.toNat : ℕ) : ℚ)
      = ((⌊(((v :: vs).length - 1 : ℕ) : ℚ) * (3/20)⌋ : ℤ) : ℚ) := by
    exact_mod_cast Int.toNat_of_nonneg hfloor0
  have hle_i : ((⌊(((v :: vs).length - 1 : ℕ) : ℚ) * (3/20)⌋.toNat : ℕ) : ℚ)
      ≤ (((v :: vs).length - 1 : ℕ) : ℚ) * (3/20) := by
    rw [hcasti0]
    exact Int.floor_le _
  have hlt_i : (((v :: vs).length - 1 : ℕ) : ℚ) * (3/20)
      < ((⌊(((v :: vs).length - 1 : ℕ) : ℚ) * (3/20)⌋.toNat : ℕ) : ℚ) + 1 := by
    rw [hcasti0]
    exact Int.lt_floor_add_one _
  have hone : (1 : ℚ) ≤ ((v :: vs).length : ℚ) - 1 := by
    have : (2 : ℚ) ≤ ((v :: vs).length : ℚ) := by exact_mod_cast hn2
    linarith
  have hi_lt : (((v :: vs).length - 1 : ℕ) : ℚ) * (3/20) < ((v :: vs).length : ℚ) - 1 := by
    rw [hcastlen]
    nlinarith
  have hi0_lt1 : ⌊(((v :: vs).length - 1 : ℕ) : ℚ) * (3/20)⌋.toNat + 1 < (v :: vs).length := by
    have h1 : ((⌊(((v :: vs).length - 1 : ℕ) : ℚ) * (3/20)⌋.toNat : ℕ) : ℚ) + 1
        < ((v :: vs).length : ℚ) := by linarith
    exact_mod_cast h1
  have hi0_lt : ⌊(((v :: vs).length - 1 : ℕ) : ℚ) * (3/20)⌋.toNat < (v :: vs).length := by
    omega
  refine ⟨_, d3quantile_cons_eval v vs hn2, ?_⟩
  have hget0 : (v :: vs).getD (⌊(((v :: vs).length - 1 : ℕ) : ℚ) * (3/20)⌋.toNat) 0
      = (v :: vs).get ⟨⌊(((v :: vs).length - 1 : ℕ) : ℚ) * (3/20)⌋.toNat, hi0_lt⟩ := by
    rw [List.getD_eq_getElem _ _ hi0_lt]
    rfl
  have hget1 : (v :: vs).getD (⌊(((v :: vs).length - 1 : ℕ) : ℚ) * (3/20)⌋.toNat + 1) 0
      = (v :: vs).get ⟨⌊(((v :: vs).length - 1 : ℕ) : ℚ) * (3/20)⌋.toNat + 1, hi0_lt1⟩ := by
    rw [List.getD_eq_getElem _ _ hi0_lt1]
    rfl
  rw [hget0, hget1]
  have hba : (v :: vs).get ⟨⌊(((v :: vs).length - 1 : ℕ) : ℚ) * (3/20)⌋.toNat + 1, hi0_lt1⟩
      < (v :: vs).get ⟨⌊(((v :: vs).length - 1 : ℕ) : ℚ) * (3/20)⌋.toNat, hi0_lt⟩ := by
    exact List.pairwise_iff_get.mp hstrict _ _ (Fin.mk_lt_mk.mpr (Nat.lt_succ_self _))
  have hta : (v :: vs).get ⟨⌊(((v :: vs).length - 1 : ℕ) : ℚ) * (3/20)⌋.toNat, hi0_lt⟩
        + ((v :: vs).get ⟨⌊(((v :: vs).length - 1 : ℕ) : ℚ) * (3/20)⌋.toNat + 1, hi0_lt1⟩
            - (v :: vs).get ⟨⌊(((v :: vs).length - 1 : ℕ) : ℚ) * (3/20)⌋.toNat, hi0_lt⟩)
          * ((((v :: vs).length - 1 : ℕ) : ℚ) * (3/20)
              - (⌊(((v :: vs).length - 1 : ℕ) : ℚ) * (3/20)⌋.toNat : ℚ))
      ≤ (v :: vs).get ⟨⌊(((v :: vs).length - 1 : ℕ) : ℚ) * (3/20)⌋.toNat, hi0_lt⟩ := by
    nlinarith [hba, hle_i]
  have htb : (v :: vs).get ⟨⌊(((v :: vs).length - 1 : ℕ) : ℚ) * (3/20)⌋.toNat + 1, hi0_lt1⟩
      < (v :: vs).get ⟨⌊(((v :: vs).length - 1 : ℕ) : ℚ) * (3/20)⌋.toNat, hi0_lt⟩
        + ((v :: vs).get ⟨⌊(((v :: vs).length - 1 : ℕ) : ℚ) * (3/20)⌋.toNat + 1, hi0_lt1⟩
            - (v :: vs).get ⟨⌊(((v :: vs).length - 1 : ℕ) : ℚ) * (3/20)⌋.toNat, hi0_lt⟩)
          * ((((v :: vs).length - 1 : ℕ) : ℚ) * (3/20)
              - (⌊(((v :: vs).length - 1 : ℕ) : ℚ) * (3/20)⌋.toNat : ℚ)) := by
    nlinarith [hba, hlt_i]
  have hcount := countP_ge_of_strict_desc (v :: vs)
    (⌊(((v :: vs).length - 1 : ℕ) : ℚ) * (3/20)⌋.toNat) _ hstrict hi0_lt hta ?later
  case later =>
    intro j hj hkj
    rcases Nat.lt_or_ge j (⌊(((v :: vs).length - 1 : ℕ) : ℚ) * (3/20)⌋.toNat + 1 + 1) with hj2 | hj2
    · have hjeq : j = ⌊(((v :: vs).length - 1 : ℕ) : ℚ) * (3/20)⌋.toNat + 1 := by omega
      subst hjeq
      exact htb
    · have hlt2 : (v :: vs).get ⟨j, hj⟩
          < (v :: vs).get ⟨⌊(((v :: vs).length - 1 : ℕ) : ℚ) * (3/20)⌋.toNat + 1, hi0_lt1⟩ := by
        exact List.pairwise_iff_get.mp hstrict _ _ (Fin.mk_lt_mk.mpr (by omega))
      exact lt_trans hlt2 htb
  rw [hcount]
  congr 2
  rw [hcastlen]



/-- C8: the label threshold is a single quantile cutoff computed once
from all nodes' importance scores (d3.quantile at p = 0.15 over the
descending-sorted score array), a node's label is visible iff its score
is at least that threshold, and — whenever scores are distinct and at
least two nodes exist — exactly `floor(0.15 * (n - 1)) + 1` nodes
(about the top 15 percent) are labeled. -/
theorem label_threshold_spec (nodes : List VNode) (h2 : 2 ≤ nodes.length)
    (hnd : (nodes.map VNode.score).Nodup) :
    (∀ d ∈ nodes,
        (labelVisible (nodes.map VNode.score) d.score = true
          ↔ ∃ t, labelThreshold (nodes.map VNode.score) = some t ∧ t ≤ d.score))
    ∧ nodes.countP (fun d => labelVisible (nodes.map VNode.score) d.score)
        = (⌊((nodes.length : ℚ) - 1) * (3/20)⌋).toNat + 1 := by
  have hperm : (sortDesc (nodes.map VNode.score)).Perm (nodes.map VNode.score) :=
    List.mergeSort_perm _ _
  have hlen : (sortDesc (nodes.map VNode.score)).length = nodes.length := by
    rw [hperm.length_eq, List.length_map]
  have hsorted : (sortDesc (nodes.map VNode.score)).Pairwise
      (fun a b : ℚ => decide (b ≤ a) = true) :=
    List.sorted_mergeSort
      (fun a b c hab hbc => by
        simp only [decide_eq_true_eq] at *
        exact le_trans hbc hab)
      (fun a b => by
        simp only [Bool.or_eq_true, decide_eq_true_eq]
        exact le_total b a)
      (nodes.map VNode.score)
  have hnd' : (sortDesc (nodes.map VNode.score)).Nodup := hperm.nodup_iff.mpr hnd
  have hstrict : (sortDesc (nodes.map VNode.score)).Pairwise (· > ·) := by
    refine (List.Pairwise.and hsorted hnd').imp ?_
    intro a b hab
    exact lt_of_le_of_ne (by simpa using hab.1) (Ne.symm hab.2)
  have hlen2 : 2 ≤ (sortDesc (nodes.map VNode.score)).length := by omega
  obtain ⟨t, hq, hcount⟩ := countP_quantile_desc _ hlen2 hstrict
  have hth : labelThreshold (nodes.map VNode.score) = some t := hq
  constructor
  · intro d _
    simp [labelVisible, hth]
  · have hfun : (fun d : VNode => labelVisible (nodes.map VNode.score) d.score)
        = fun d => decide (t ≤ d.score) := by
      funext d
      simp [labelVisible, hth]
    rw [hfun]
    have h1 : nodes.countP (fun d => decide (t ≤ d.score))
        = (nodes.map VNode.score).countP (fun x => decide (t ≤ x)) := by
      rw [List.countP_map]
      rfl
    rw [h1, ← hperm.countP_eq, hcount, hlen]

/-- A small dataset with four distinct scores for the C8 witness. -/
def c8nodes : List VNode :=
  [⟨1, "Keynesian", none, 5⟩, ⟨2, "Keynesian", none, 1⟩,
   ⟨3, "Keynesian", none, 3⟩, ⟨4, "Keynesian", none, 2⟩]

/-- Witness for `label_threshold_spec`. -/
theorem label_threshold_spec_witness :
    c8nodes.countP (fun d => labelVisible (c8nodes.map VNode.score) d.score)
      = (⌊((c8nodes.length : ℚ) - 1) * (3/20)⌋).toNat + 1 :=
  (label_threshold_spec c8nodes (by norm_num [c8nodes]) (by norm_num [c8nodes])).2
end Econograph
